import Mathlib

/-!
Shallow embedding of the temperature-control / VNA data-acquisition core of
`vna_temperature_control_pid.py`, together with theorems settling the spec's
claims about it.  Temperatures, times and rates are modelled as rationals;
device readings and wall-clock poll times are supplied as explicit traces;
side effects (setpoint commands, log lines, metadata writes) are modelled as
explicit effect lists.
-/

namespace VnaTempControl

/-- Configuration constant `TEMP_TOLERANCE = 0.5` from the source. -/
def TEMP_TOLERANCE : ℚ := 1/2

/-- Configuration constant `STABILITY_DURATION = 5` from the source. -/
def STABILITY_DURATION : ℚ := 5

/-- Configuration constant `INTERMEDIATE_STEP_SIZE = 1` from the source. -/
def INTERMEDIATE_STEP_SIZE : ℚ := 1

/-- The loop `for i in range(1, num_steps + 1): intermediate_temps.append(
current_temp + direction * INTERMEDIATE_STEP_SIZE * i)` of
`calculate_intermediate_temps`, transcribed as a recursion that appends the
`i`-th setpoint at the end, for `i = 1 .. num_steps`. -/
def ramp_steps (current_temp direction : ℚ) : ℕ → List ℚ
  | 0 => []
  | n + 1 => ramp_steps current_temp direction n ++
      [current_temp + direction * INTERMEDIATE_STEP_SIZE * ((n : ℚ) + 1)]

/-- Embedding of `calculate_intermediate_temps(current_temp, target_temp, ramp_rate)`.
Mirrors the Python line by line: `temp_change = target - current`;
`direction = 1 if temp_change > 0 else -1`;
`num_steps = int(abs(temp_change) / INTERMEDIATE_STEP_SIZE)` (truncation of a
nonnegative quantity = `Nat.floor`); if `num_steps == 0` return `([target], 0)`;
otherwise the 1-based append loop `ramp_steps`, with `target` appended when
`abs(intermediate_temps[-1] - target) > 0.1` (the `[-1]` access is `getLastD`,
whose default is irrelevant as the list is nonempty); dwell
`= (INTERMEDIATE_STEP_SIZE / ramp_rate) * 60`. -/
def calculate_intermediate_temps (current_temp target_temp ramp_rate : ℚ) :
    List ℚ × ℚ :=
  let temp_change := target_temp - current_temp
  let direction : ℚ := if 0 < temp_change then 1 else -1
  let num_steps : ℕ := ⌊|temp_change| / INTERMEDIATE_STEP_SIZE⌋₊
  if num_steps = 0 then
    ([target_temp], 0)
  else
    let base := ramp_steps current_temp direction num_steps
    let intermediate_temps :=
      if 1/10 < |base.getLastD 0 - target_temp| then base ++ [target_temp] else base
    (intermediate_temps, INTERMEDIATE_STEP_SIZE / ramp_rate * 60)

/-- Embedding of the core stabilization loop of `wait_for_stability`
(`stable_start = None; while True: ...`).  Each trace element is a pair
`(now, temp)`: the wall-clock time of the poll (`time.time()`) and the
measured temperature (`device.get_temp()`).  The accumulator is the Python
variable `stable_start`.  If the reading is within `TEMP_TOLERANCE` of the
target, a closed window is opened at `now` (with no duration check in the
same iteration, as in the source) and an open window is checked against
`STABILITY_DURATION`; an out-of-band reading resets `stable_start` to `None`
and continues.  Returns `some (now, stable_start)` when the loop declares
stability and returns `True` — the success time and the start of the window
used for the duration check — and `none` when the trace is exhausted with
the loop still running (the loop itself has no failure exit). -/
def stability_loop (target_temp : ℚ) :
    List (ℚ × ℚ) → Option ℚ → Option (ℚ × ℚ)
  | [], _ => none
  | (now, temp) :: rest, none =>
    if |temp - target_temp| ≤ TEMP_TOLERANCE then
      stability_loop target_temp rest (some now)
    else
      stability_loop target_temp rest none
  | (now, temp) :: rest, some s =>
    if |temp - target_temp| ≤ TEMP_TOLERANCE then
      (if STABILITY_DURATION ≤ now - s then some (now, s)
       else stability_loop target_temp rest (some s))
    else
      stability_loop target_temp rest none

/-- The `while overshoot_active:` polling loop of the overshoot sub-phase:
each iteration reads a temperature and computes
`has_crossed = (current_temp <= target_temp)` for cooling and
`(current_temp >= target_temp)` for heating; on crossing the loop exits.
Returns the reading at which the loop exited (`some`), or `none` if the
trace is exhausted with the loop still polling. -/
def overshoot_wait (cooling : Bool) (target_temp : ℚ) : List ℚ → Option ℚ
  | [] => none
  | temp :: rest =>
    let has_crossed : Bool :=
      if cooling then decide (temp ≤ target_temp) else decide (target_temp ≤ temp)
    if has_crossed then some temp else overshoot_wait cooling target_temp rest

/-- Embedding of the overshoot sub-phase of `wait_for_stability` (the
`if use_overshoot:` block).  The head of the trace is the entry reading
`current_temp = device.get_temp()` taken before the sub-phase; the tail
holds the readings of the polling loop.  Direction: cooling iff
`current_temp > target_temp`; the overshoot setpoint is
`target_temp - overshoot_amount` for cooling and `+` for heating, commanded
by `device.set_temp` before polling; on crossing, `device.set_temp(target)`
is issued.  Returns the overshoot setpoint, the list of setpoint commands in
order, and the reading at which the loop exited. -/
def overshoot_phase (target_temp overshoot_amount : ℚ) :
    List ℚ → Option (ℚ × List ℚ × Option ℚ)
  | [] => none
  | current :: rest =>
    let cooling : Bool := decide (target_temp < current)
    let overshoot_temp :=
      if cooling then target_temp - overshoot_amount
      else target_temp + overshoot_amount
    let exit_reading := overshoot_wait cooling target_temp rest
    some (overshoot_temp,
          overshoot_temp :: (match exit_reading with
            | some _ => [target_temp]
            | none => []),
          exit_reading)

/-- The polling loop of the fast-mode branch (`ramp_rate is None`) of
`ramp_to_temperature`: each iteration reads a temperature, logs it, and
breaks when `abs(current_temp - target_temp) <= TEMP_TOLERANCE * 2`.
Returns the reading at which the loop broke, or `none` if the trace is
exhausted with the loop still polling. -/
def fast_ramp_poll (target_temp : ℚ) : List ℚ → Option ℚ
  | [] => none
  | temp :: rest =>
    if |temp - target_temp| ≤ TEMP_TOLERANCE * 2 then some temp
    else fast_ramp_poll target_temp rest

/-- Fast-mode branch of `ramp_to_temperature`: `device.set_temp(target_temp)`
is commanded once before the loop (the singleton command list), then the
loop polls until near the target. -/
def ramp_to_temperature_fast (target_temp : ℚ) (readings : List ℚ) :
    List ℚ × Option ℚ :=
  ([target_temp], fast_ramp_poll target_temp readings)

/-- Outcome of one `while experiment_running:` cycle of `vna_sweep_thread`
for sequence-number purposes.  The counter increment
`with vna_lock: vna_sweep_count += 1; sweep_num = vna_sweep_count` happens
after the `temp_log_callback()` read and before the VNA query, so an
exception inside the cycle's `try` either precedes the assignment (no number
consumed) or follows it (a number was assigned, but the sweep file is not
written); either way the handler sleeps and the loop retries. -/
inductive SweepCycleOutcome
  | success
  | errorAfterAssign
  | errorBeforeAssign
  deriving DecidableEq

/-- Runs sampling cycles from a given value of `vna_sweep_count`, returning
the final counter and the list of sequence numbers assigned, in order.
`collect_data` resets `vna_sweep_count = 0` before starting the task. -/
def run_sweep_cycles : ℕ → List SweepCycleOutcome → ℕ × List ℕ
  | count, [] => (count, [])
  | count, SweepCycleOutcome.errorBeforeAssign :: rest => run_sweep_cycles count rest
  | count, SweepCycleOutcome.success :: rest =>
    ((run_sweep_cycles (count + 1) rest).1,
     (count + 1) :: (run_sweep_cycles (count + 1) rest).2)
  | count, SweepCycleOutcome.errorAfterAssign :: rest =>
    ((run_sweep_cycles (count + 1) rest).1,
     (count + 1) :: (run_sweep_cycles (count + 1) rest).2)

/-- Observable effects of one `vna_sweep_thread` cycle. -/
inductive SweepEffect
  | acquireSweep
  | writeSweepFile
  | sleepInterval
  | logError
  | sleepRetry
  deriving DecidableEq

/-- The `except Exception as e:` handler at the bottom of a
`vna_sweep_thread` cycle: the error is printed only under
`if experiment_running:`, then the task sleeps 5 seconds (the retry
backoff). -/
def vna_sweep_error_handler (experiment_running : Bool) : List SweepEffect :=
  (if experiment_running then [SweepEffect.logError] else []) ++
  [SweepEffect.sleepRetry]

/-- One cycle of `vna_sweep_thread`: a successful cycle acquires the sweep,
writes the sweep file and sleeps the sweep interval; a cycle whose
acquisition raises lands in the error handler. -/
def vna_sweep_cycle (experiment_running acquisition_fails : Bool) :
    List SweepEffect :=
  if acquisition_fails then vna_sweep_error_handler experiment_running
  else [SweepEffect.acquireSweep, SweepEffect.writeSweepFile,
        SweepEffect.sleepInterval]

/-- Exceptions relevant to `collect_data`'s control flow. -/
inductive PyExc
  | keyboardInterrupt
  | otherExc
  deriving DecidableEq

/-- How one iteration of the per-target `for` loop body ends: normally,
raising `KeyboardInterrupt`, or raising an unexpected exception. -/
inductive StepResult
  | ok
  | raiseKI
  | raiseOther
  deriving DecidableEq

/-- Observable finalization effects of `collect_data`. -/
inductive Effect
  | setStopFlag
  | setIdle
  | writeMetadata (completed : Bool)
  deriving DecidableEq

/-- Whether an effect is the metadata write (with any flag). -/
def Effect.isWriteMeta : Effect → Bool
  | Effect.writeMetadata _ => true
  | _ => false

/-- The `for step_idx, target_temp in enumerate(temps, 1):` loop of
`collect_data`: runs step bodies until the first one that raises, returning
the raised exception if any. -/
def runLoop : List StepResult → Option PyExc
  | [] => none
  | StepResult.ok :: rest => runLoop rest
  | StepResult.raiseKI :: _ => some PyExc.keyboardInterrupt
  | StepResult.raiseOther :: _ => some PyExc.otherExc

/-- The `try:` body with its `except KeyboardInterrupt:` clause:
`experiment_completed = True` is reached only when the loop finishes every
target; `KeyboardInterrupt` is caught (setting the interrupt counter), so no
exception is pending; any other exception stays pending for after the
`finally`.  Returns `(experiment_completed, pending exception)`. -/
def try_except_ki (steps : List StepResult) : Bool × Option PyExc :=
  match runLoop steps with
  | none => (true, none)
  | some PyExc.keyboardInterrupt => (false, none)
  | some PyExc.otherExc => (false, some PyExc.otherExc)

/-- Sequencing of two statements under Python exception semantics: the
second statement runs only if the first did not raise. -/
def stmtSeq (a b : List Effect × Option PyExc) : List Effect × Option PyExc :=
  match a.2 with
  | none => (a.1 ++ b.1, b.2)
  | some e => (a.1, some e)

/-- `device.set_idle()` inside the `finally:` block: the idle command is
always issued; whether it raises is a parameter of the run. -/
def set_idle_stmt (idle_raises : Bool) : List Effect × Option PyExc :=
  ([Effect.setIdle], if idle_raises then some PyExc.otherExc else none)

/-- The bare `try: ... except: pass` wrapped around `device.set_idle()`:
any exception is swallowed. -/
def try_except_pass (a : List Effect × Option PyExc) : List Effect × Option PyExc :=
  (a.1, none)

/-- The `finally:` block of `collect_data`: set `experiment_running = False`
(the sampling stop flag), attempt `device.set_idle()` under a bare
`except: pass`, then write the metadata record carrying the
`experiment_completed` flag. -/
def finally_block (completed idle_raises : Bool) : List Effect × Option PyExc :=
  stmtSeq ([Effect.setStopFlag], none)
    (stmtSeq (try_except_pass (set_idle_stmt idle_raises))
      ([Effect.writeMetadata completed], none))

/-- The whole `try / except KeyboardInterrupt / finally` of `collect_data`:
the `finally` block always runs; if it completes without raising, the body's
pending exception (if any) propagates to the caller. -/
def collect_data_run (steps : List StepResult) (idle_raises : Bool) :
    List Effect × Option PyExc :=
  let body := try_except_ki steps
  let fin := finally_block body.1 idle_raises
  (fin.1,
   match fin.2 with
   | some e => some e
   | none => body.2)

/-! ### Theorems -/

/-! ### Structural lemmas about the ramp planner -/

theorem ramp_steps_length (c d : ℚ) (n : ℕ) : (ramp_steps c d n).length = n := by
  induction n with
  | zero => rfl
  | succ n ih => simp [ramp_steps, ih]

theorem ramp_steps_getD (c d : ℚ) (n i : ℕ) (hi : i < n) :
    (ramp_steps c d n).getD i 0 = c + d * INTERMEDIATE_STEP_SIZE * ((i : ℚ) + 1) := by
  induction n with
  | zero => omega
  | succ n ih =>
    rcases Nat.lt_succ_iff_lt_or_eq.mp hi with h | h
    · rw [ramp_steps, List.getD_append _ _ _ _ (by rw [ramp_steps_length]; exact h)]
      exact ih h
    · subst h
      rw [ramp_steps, List.getD_eq_getElem?_getD, List.getElem?_append_right
        (by rw [ramp_steps_length])]
      simp [ramp_steps_length]

theorem ramp_steps_getLastD (c d : ℚ) (n : ℕ) (hn : n ≠ 0) :
    (ramp_steps c d n).getLastD 0 = c + d * INTERMEDIATE_STEP_SIZE * (n : ℚ) := by
  cases n with
  | zero => exact absurd rfl hn
  | succ n =>
    rw [ramp_steps, List.getLastD_concat]
    push_cast
    ring

theorem ramp_steps_ne_nil (c d : ℚ) (n : ℕ) (hn : n ≠ 0) :
    ramp_steps c d n ≠ [] := by
  intro h
  have := ramp_steps_length c d n
  rw [h] at this
  exact hn this.symm

theorem calculate_intermediate_temps_of_eq (c t r : ℚ)
    (hn : ⌊|t - c| / INTERMEDIATE_STEP_SIZE⌋₊ = 0) :
    calculate_intermediate_temps c t r = ([t], 0) := by
  simp only [calculate_intermediate_temps]
  rw [if_pos hn]

theorem calculate_intermediate_temps_of_ne (c t r : ℚ)
    (hn : ⌊|t - c| / INTERMEDIATE_STEP_SIZE⌋₊ ≠ 0) :
    calculate_intermediate_temps c t r =
      ((if 1/10 <
          |(ramp_steps c (if 0 < t - c then 1 else -1)
              ⌊|t - c| / INTERMEDIATE_STEP_SIZE⌋₊).getLastD 0 - t| then
          ramp_steps c (if 0 < t - c then 1 else -1)
            ⌊|t - c| / INTERMEDIATE_STEP_SIZE⌋₊ ++ [t]
        else
          ramp_steps c (if 0 < t - c then 1 else -1)
            ⌊|t - c| / INTERMEDIATE_STEP_SIZE⌋₊),
       INTERMEDIATE_STEP_SIZE / r * 60) := by
  simp only [calculate_intermediate_temps]
  rw [if_neg hn]

theorem step_size_div (q : ℚ) : q / INTERMEDIATE_STEP_SIZE = q := by
  simp [INTERMEDIATE_STEP_SIZE]

/-- Core arithmetic facts about the nonempty ramp plan: monotone in the
direction `d`, last element within `0.1` of `target`, and all consecutive
steps except possibly the last of magnitude exactly one step size. -/
theorem ramp_plan_props (c t d : ℚ) (n : ℕ) (hn : n ≠ 0)
    (hd : d = 1 ∨ d = -1)
    (hpos : c < t → d = 1) (hneg : t < c → d = -1)
    (habs : d * (t - c) = |t - c|)
    (hfl : (n : ℚ) ≤ |t - c|) (hfu : |t - c| < n + 1) :
    (if 1/10 < |(ramp_steps c d n).getLastD 0 - t| then
        ramp_steps c d n ++ [t] else ramp_steps c d n) ≠ [] ∧
    (∀ i, i + 1 <
        (if 1/10 < |(ramp_steps c d n).getLastD 0 - t| then
          ramp_steps c d n ++ [t] else ramp_steps c d n).length →
      (c < t →
        (if 1/10 < |(ramp_steps c d n).getLastD 0 - t| then
          ramp_steps c d n ++ [t] else ramp_steps c d n).getD i 0 <
        (if 1/10 < |(ramp_steps c d n).getLastD 0 - t| then
          ramp_steps c d n ++ [t] else ramp_steps c d n).getD (i+1) 0) ∧
      (t < c →
        (if 1/10 < |(ramp_steps c d n).getLastD 0 - t| then
          ramp_steps c d n ++ [t] else ramp_steps c d n).getD (i+1) 0 <
        (if 1/10 < |(ramp_steps c d n).getLastD 0 - t| then
          ramp_steps c d n ++ [t] else ramp_steps c d n).getD i 0)) ∧
    |(if 1/10 < |(ramp_steps c d n).getLastD 0 - t| then
        ramp_steps c d n ++ [t] else ramp_steps c d n).getLastD 0 - t| ≤ 1/10 ∧
    (∀ i, i + 2 <
        (if 1/10 < |(ramp_steps c d n).getLastD 0 - t| then
          ramp_steps c d n ++ [t] else ramp_steps c d n).length →
      |(if 1/10 < |(ramp_steps c d n).getLastD 0 - t| then
          ramp_steps c d n ++ [t] else ramp_steps c d n).getD (i+1) 0 -
       (if 1/10 < |(ramp_steps c d n).getLastD 0 - t| then
          ramp_steps c d n ++ [t] else ramp_steps c d n).getD i 0|
        = INTERMEDIATE_STEP_SIZE) := by
  have hS : INTERMEDIATE_STEP_SIZE = 1 := rfl
  have hd2 : d * d = 1 := by rcases hd with h | h <;> rw [h] <;> norm_num
  have hlast : (ramp_steps c d n).getLastD 0 = c + d * n := by
    rw [ramp_steps_getLastD c d n hn, hS]; ring
  have hgetD : ∀ i, i < n →
      (ramp_steps c d n).getD i 0 = c + d * ((i : ℚ) + 1) := by
    intro i hi
    rw [ramp_steps_getD c d n i hi, hS]; ring
  have hkey : d * (t - (c + d * n)) = |t - c| - n := by
    have h1 : d * (t - (c + d * n)) = d * (t - c) - d * d * n := by ring
    rw [h1, habs, hd2]; ring
  have habs_last : |(ramp_steps c d n).getLastD 0 - t| = |t - c| - n := by
    rw [hlast, abs_sub_comm]
    rcases hd with h | h
    · rw [h] at hkey ⊢
      rw [abs_of_nonneg (by linarith [hkey, hfl])]
      linarith [hkey]
    · rw [h] at hkey ⊢
      rw [abs_of_nonpos (by linarith [hkey, hfl])]
      linarith [hkey]
  -- the step between consecutive generated setpoints is exactly `d`
  have hstep_d : ∀ i, i + 1 < n →
      (ramp_steps c d n).getD (i+1) 0 - (ramp_steps c d n).getD i 0 = d := by
    intro i hi
    rw [hgetD (i+1) hi, hgetD i (by omega)]
    push_cast
    ring
  have hmono_base : ∀ i, i + 1 < n →
      (c < t → (ramp_steps c d n).getD i 0 < (ramp_steps c d n).getD (i+1) 0) ∧
      (t < c → (ramp_steps c d n).getD (i+1) 0 < (ramp_steps c d n).getD i 0) := by
    intro i hi
    constructor
    · intro h
      have h2 : (ramp_steps c d n).getD (i+1) 0 - (ramp_steps c d n).getD i 0 = 1 := by
        rw [hstep_d i hi]; exact hpos h
      linarith
    · intro h
      have h2 : (ramp_steps c d n).getD (i+1) 0 - (ramp_steps c d n).getD i 0 = -1 := by
        rw [hstep_d i hi]; exact hneg h
      linarith
  have habs_d : |d| = 1 := by rcases hd with h | h <;> rw [h] <;> norm_num
  by_cases hA : 1/10 < |(ramp_steps c d n).getLastD 0 - t|
  · rw [if_pos hA]
    have hlen : (ramp_steps c d n ++ [t]).length = n + 1 := by
      simp [ramp_steps_length]
    have hPgetD : ∀ i, i < n →
        (ramp_steps c d n ++ [t]).getD i 0 = (ramp_steps c d n).getD i 0 := by
      intro i hi
      exact List.getD_append _ _ _ _ (by rw [ramp_steps_length]; exact hi)
    have hPgetDn : (ramp_steps c d n ++ [t]).getD n 0 = t := by
      rw [List.getD_eq_getElem?_getD, List.getElem?_append_right
        (by rw [ramp_steps_length])]
      simp [ramp_steps_length]
    refine ⟨by simp, ?_, ?_, ?_⟩
    · intro i hi
      rw [hlen] at hi
      rcases Nat.lt_succ_iff_lt_or_eq.mp hi with h | h
      · rw [hPgetD i (by omega), hPgetD (i+1) h]
        exact hmono_base i h
      · -- the appended, irregular final step
        have hin : i < n := by omega
        rw [hPgetD i hin, hgetD i hin, h, hPgetDn]
        have hiq : (i : ℚ) + 1 = (n : ℚ) := by exact_mod_cast h
        rw [hiq]
        rw [habs_last] at hA
        constructor
        · intro hct
          have hd1 := hpos hct
          rw [hd1] at hkey ⊢
          linarith [hkey, hA]
        · intro htc
          have hd1 := hneg htc
          rw [hd1] at hkey ⊢
          linarith [hkey, hA]
    · rw [List.getLastD_concat]
      simp
    · intro i hi
      rw [hlen] at hi
      have h1 : i + 1 < n := by omega
      rw [hPgetD i (by omega), hPgetD (i+1) h1, hstep_d i h1, habs_d, hS]
  · rw [if_neg hA]
    refine ⟨ramp_steps_ne_nil c d n hn, ?_, ?_, ?_⟩
    · intro i hi
      rw [ramp_steps_length] at hi
      exact hmono_base i hi
    · exact not_lt.mp hA
    · intro i hi
      rw [ramp_steps_length] at hi
      have h1 : i + 1 < n := by omega
      rw [hstep_d i h1, habs_d, hS]

/-- C2 (amended): for every `(current, target, rate)` with `rate > 0`, the
setpoint sequence returned by `calculate_intermediate_temps` is nonempty,
strictly monotonic in the direction of `target - current`, ends within `0.1`
units of `target`, and every consecutive step except possibly the last has
magnitude exactly the fixed step size (1 unit). -/
theorem ramp_plan_monotone_ends_near (c t r : ℚ) (hr : 0 < r) :
    (calculate_intermediate_temps c t r).1 ≠ [] ∧
    (∀ i, i + 1 < (calculate_intermediate_temps c t r).1.length →
      (c < t → (calculate_intermediate_temps c t r).1.getD i 0 <
          (calculate_intermediate_temps c t r).1.getD (i+1) 0) ∧
      (t < c → (calculate_intermediate_temps c t r).1.getD (i+1) 0 <
          (calculate_intermediate_temps c t r).1.getD i 0)) ∧
    |(calculate_intermediate_temps c t r).1.getLastD 0 - t| ≤ 1/10 ∧
    (∀ i, i + 2 < (calculate_intermediate_temps c t r).1.length →
      |(calculate_intermediate_temps c t r).1.getD (i+1) 0 -
        (calculate_intermediate_temps c t r).1.getD i 0| = INTERMEDIATE_STEP_SIZE) := by
  by_cases hn : ⌊|t - c| / INTERMEDIATE_STEP_SIZE⌋₊ = 0
  · rw [calculate_intermediate_temps_of_eq c t r hn]
    refine ⟨by simp, ?_, ?_, ?_⟩
    · intro i hi
      simp only [List.length_singleton] at hi
      omega
    · simp
    · intro i hi
      simp only [List.length_singleton] at hi
      omega
  · rw [calculate_intermediate_temps_of_ne c t r hn]
    rw [step_size_div] at hn ⊢
    have h1q : (1 : ℚ) ≤ |t - c| := by
      have h2 := (Nat.le_floor_iff (abs_nonneg (t - c))).mp
        (Nat.one_le_iff_ne_zero.mpr hn)
      exact_mod_cast h2
    have hne : t - c ≠ 0 := by
      intro h0
      rw [h0, abs_zero] at h1q
      linarith
    have hd : (if 0 < t - c then (1:ℚ) else -1) = 1 ∨
        (if 0 < t - c then (1:ℚ) else -1) = -1 := by
      split_ifs <;> simp
    have hpos : c < t → (if 0 < t - c then (1:ℚ) else -1) = 1 := by
      intro h
      rw [if_pos (by linarith)]
    have hneg : t < c → (if 0 < t - c then (1:ℚ) else -1) = -1 := by
      intro h
      rw [if_neg (by intro h2; linarith)]
    have habs : (if 0 < t - c then (1:ℚ) else -1) * (t - c) = |t - c| := by
      rcases lt_or_gt_of_ne hne with h | h
      · rw [hneg (by linarith), abs_of_neg h]; ring
      · rw [hpos (by linarith), abs_of_pos h]; ring
    exact ramp_plan_props c t (if 0 < t - c then (1:ℚ) else -1) ⌊|t - c|⌋₊ hn hd
      hpos hneg habs (Nat.floor_le (abs_nonneg _)) (Nat.lt_floor_add_one _)

/-- C2 witness: the amended claim instantiated at
`current = 20`, `target = 24.3`, `rate = 2`. -/
theorem ramp_plan_monotone_ends_near_witness :
    (0 : ℚ) < 2 ∧
    ((calculate_intermediate_temps 20 (243/10) 2).1 ≠ [] ∧
     (∀ i, i + 1 < (calculate_intermediate_temps 20 (243/10) 2).1.length →
       ((20:ℚ) < 243/10 → (calculate_intermediate_temps 20 (243/10) 2).1.getD i 0 <
           (calculate_intermediate_temps 20 (243/10) 2).1.getD (i+1) 0) ∧
       ((243/10:ℚ) < 20 → (calculate_intermediate_temps 20 (243/10) 2).1.getD (i+1) 0 <
           (calculate_intermediate_temps 20 (243/10) 2).1.getD i 0)) ∧
     |(calculate_intermediate_temps 20 (243/10) 2).1.getLastD 0 - 243/10| ≤ 1/10 ∧
     (∀ i, i + 2 < (calculate_intermediate_temps 20 (243/10) 2).1.length →
       |(calculate_intermediate_temps 20 (243/10) 2).1.getD (i+1) 0 -
         (calculate_intermediate_temps 20 (243/10) 2).1.getD i 0| =
         INTERMEDIATE_STEP_SIZE)) :=
  ⟨by norm_num, ramp_plan_monotone_ends_near 20 (243/10) 2 (by norm_num)⟩

/-- C2 counterexample: at `current = 0`, `target = 2.05`, `rate = 1` the
returned plan is `[1, 2]`: the residual `0.05` is within the `0.1` tolerance,
so `target` is not appended and the plan does not end at exactly `target`. -/
theorem ramp_plan_last_not_target :
    (calculate_intermediate_temps 0 (41/20) 1).1 = [1, 2] ∧
    (calculate_intermediate_temps 0 (41/20) 1).1.getLastD 0 ≠ 41/20 := by
  have hfloor : ⌊|(41/20 : ℚ) - 0| / INTERMEDIATE_STEP_SIZE⌋₊ = 2 := by
    rw [step_size_div]
    norm_num [Nat.floor_eq_iff, abs_of_nonneg]
  have h2 := calculate_intermediate_temps_of_ne 0 (41/20) 1 (by rw [hfloor]; norm_num)
  rw [hfloor] at h2
  rw [h2]
  norm_num [ramp_steps, INTERMEDIATE_STEP_SIZE, List.getLastD_cons, abs_of_nonneg,
    List.getLast?]

/-- C7: whenever `rate > 0` and there is at least one whole step between
`current` and `target`, the dwell returned by `calculate_intermediate_temps`
is `stepSize / rate * 60` seconds; and in particular
`current = 20.0, target = 24.3, rate = 2.0` yields setpoints
`[21, 22, 23, 24, 24.3]` with dwell `30` seconds. -/
theorem ramp_dwell_time (c t r : ℚ) (hr : 0 < r) (h1 : 1 ≤ |t - c|) :
    (calculate_intermediate_temps c t r).2 = INTERMEDIATE_STEP_SIZE / r * 60 ∧
    calculate_intermediate_temps 20 (243/10) 2 = ([21, 22, 23, 24, 243/10], 30) := by
  constructor
  · have hn : ⌊|t - c| / INTERMEDIATE_STEP_SIZE⌋₊ ≠ 0 := by
      rw [step_size_div]
      intro h0
      rw [Nat.floor_eq_zero] at h0
      linarith
    rw [calculate_intermediate_temps_of_ne c t r hn]
  · have hfloor : ⌊|(243/10 : ℚ) - 20| / INTERMEDIATE_STEP_SIZE⌋₊ = 4 := by
      rw [step_size_div]
      norm_num [Nat.floor_eq_iff, abs_of_nonneg]
    have h2 := calculate_intermediate_temps_of_ne 20 (243/10) 2 (by rw [hfloor]; norm_num)
    rw [hfloor] at h2
    rw [h2]
    norm_num [ramp_steps, INTERMEDIATE_STEP_SIZE, List.getLastD_cons, abs_of_nonneg]

/-- C7 witness: the dwell claim instantiated at
`current = 20`, `target = 24.3`, `rate = 2` (dwell `= 30`). -/
theorem ramp_dwell_time_witness :
    (0 : ℚ) < 2 ∧ (1 : ℚ) ≤ |(243/10 : ℚ) - 20| ∧
    (calculate_intermediate_temps 20 (243/10) 2).2 = INTERMEDIATE_STEP_SIZE / 2 * 60 :=
  ⟨by norm_num, by norm_num [abs_of_nonneg],
   (ramp_dwell_time 20 (243/10) 2 (by norm_num) (by norm_num [abs_of_nonneg])).1⟩

/-- C8: whenever the distance from `current` to `target` is below one step
size (so `num_steps == 0`, in particular when `current = target`),
`calculate_intermediate_temps` returns the single-element plan `[target]`
with dwell `0`. -/
theorem zero_distance_plan (c t r : ℚ) (h : |t - c| < INTERMEDIATE_STEP_SIZE) :
    calculate_intermediate_temps c t r = ([t], 0) := by
  apply calculate_intermediate_temps_of_eq
  rw [step_size_div, Nat.floor_eq_zero]
  simpa [INTERMEDIATE_STEP_SIZE] using h

/-- C8 witness: the zero-distance claim at `current = target = 5`, `rate = 3`. -/
theorem zero_distance_plan_witness :
    |(5 : ℚ) - 5| < INTERMEDIATE_STEP_SIZE ∧
    calculate_intermediate_temps 5 5 3 = ([5], 0) :=
  ⟨by norm_num [INTERMEDIATE_STEP_SIZE],
   zero_distance_plan 5 5 3 (by norm_num [INTERMEDIATE_STEP_SIZE])⟩

theorem stability_loop_duration (target_temp : ℚ) (trace : List (ℚ × ℚ))
    (st : Option ℚ) (e s : ℚ)
    (h : stability_loop target_temp trace st = some (e, s)) :
    STABILITY_DURATION ≤ e - s := by
  induction trace generalizing st with
  | nil => simp [stability_loop] at h
  | cons p rest ih =>
    obtain ⟨now, temp⟩ := p
    cases st with
    | none =>
      rw [stability_loop] at h
      by_cases hband : |temp - target_temp| ≤ TEMP_TOLERANCE
      · rw [if_pos hband] at h
        exact ih _ h
      · rw [if_neg hband] at h
        exact ih _ h
    | some s0 =>
      rw [stability_loop] at h
      by_cases hband : |temp - target_temp| ≤ TEMP_TOLERANCE
      · rw [if_pos hband] at h
        by_cases hdur : STABILITY_DURATION ≤ now - s0
        · rw [if_pos hdur] at h
          simp only [Option.some.injEq, Prod.mk.injEq] at h
          obtain ⟨h1, h2⟩ := h
          subst h1
          subst h2
          exact hdur
        · rw [if_neg hdur] at h
          exact ih _ h
      · rw [if_neg hband] at h
        exact ih _ h

/-- C3: an out-of-band reading resets the accumulation window without any
failure exit; an in-band reading with an open, not-yet-long-enough window
keeps that window's start; success implies the window used for the duration
check lasted at least `STABILITY_DURATION`; and for a trace that enters
tolerance at `t=2`, leaves at `t=6`, re-enters at `t=8` and then stays, the
loop succeeds only once the second window completes (at `t=14`), with the
window start being the second window's start `8`, not the first's `2`. -/
theorem stability_reset_and_second_window :
    (∀ (target now temp : ℚ) (rest : List (ℚ × ℚ)) (st : Option ℚ),
      TEMP_TOLERANCE < |temp - target| →
      stability_loop target ((now, temp) :: rest) st =
        stability_loop target rest none) ∧
    (∀ (target now temp s : ℚ) (rest : List (ℚ × ℚ)),
      |temp - target| ≤ TEMP_TOLERANCE → now - s < STABILITY_DURATION →
      stability_loop target ((now, temp) :: rest) (some s) =
        stability_loop target rest (some s)) ∧
    (∀ (target : ℚ) (trace : List (ℚ × ℚ)) (st : Option ℚ) (e s : ℚ),
      stability_loop target trace st = some (e, s) →
      STABILITY_DURATION ≤ e - s) ∧
    (stability_loop 10
      [(0, 20), (2, 10), (4, 10), (6, 20), (8, 10), (10, 10), (12, 10), (14, 10)]
      none = some (14, 8) ∧ (8 : ℚ) ≠ 2) := by
  refine ⟨?_, ?_, stability_loop_duration, ?_, by norm_num⟩
  · intro target now temp rest st h
    cases st with
    | none => rw [stability_loop, if_neg (not_le.mpr h)]
    | some s => rw [stability_loop, if_neg (not_le.mpr h)]
  · intro target now temp s rest h1 h2
    rw [stability_loop, if_pos h1, if_neg (not_le.mpr h2)]
  · norm_num [stability_loop, TEMP_TOLERANCE, STABILITY_DURATION,
      abs_of_nonneg, abs_of_nonpos]

/-- C3 witness: the reset, window-preservation and duration statements
instantiated on concrete readings from the two-window trace. -/
theorem stability_reset_and_second_window_witness :
    (TEMP_TOLERANCE < |(20 : ℚ) - 10| ∧
     stability_loop 10 [((0 : ℚ), (20 : ℚ))] none = stability_loop 10 [] none) ∧
    (|(10 : ℚ) - 10| ≤ TEMP_TOLERANCE ∧ (4 : ℚ) - 2 < STABILITY_DURATION ∧
     stability_loop 10 [((4 : ℚ), (10 : ℚ))] (some 2) =
       stability_loop 10 [] (some 2)) ∧
    STABILITY_DURATION ≤ (14 : ℚ) - 8 :=
  ⟨⟨by norm_num [TEMP_TOLERANCE],
    stability_reset_and_second_window.1 10 0 20 [] none
      (by norm_num [TEMP_TOLERANCE])⟩,
   ⟨by norm_num [TEMP_TOLERANCE], by norm_num [STABILITY_DURATION],
    stability_reset_and_second_window.2.1 10 4 10 2 []
      (by norm_num [TEMP_TOLERANCE]) (by norm_num [STABILITY_DURATION])⟩,
   stability_reset_and_second_window.2.2.1 10
     [(0, 20), (2, 10), (4, 10), (6, 20), (8, 10), (10, 10), (12, 10), (14, 10)]
     none 14 8 stability_reset_and_second_window.2.2.2.1⟩

theorem overshoot_wait_find (cooling : Bool) (t : ℚ) (rs : List ℚ) :
    overshoot_wait cooling t rs =
      rs.find? (fun m => if cooling then decide (m ≤ t) else decide (t ≤ m)) := by
  induction rs with
  | nil => rfl
  | cons a l ih =>
    simp only [overshoot_wait, List.find?]
    cases hB : (if cooling then decide (a ≤ t) else decide (t ≤ a)) with
    | true => simp [hB]
    | false => simp [hB, ih]

/-- C4: with overshoot enabled, the overshoot setpoint is
`target - delta` when the entry reading exceeds `target` (cooling) and
`target + delta` otherwise (heating); the sub-phase exits exactly at the
first subsequent reading satisfying the direction's crossing predicate
(`measured ≤ target` for cooling, `measured ≥ target` for heating) with no
tolerance condition, and the true target is commanded immediately after; in
particular for `current = 30, target = 10, delta = 5` the overshoot setpoint
is `5`, readings `[30, 20, 11, 9]` exit at the reading `9`, and the setpoint
commanded immediately after is `10`. -/
theorem overshoot_setpoint_and_crossing (t a e : ℚ) (rs : List ℚ) :
    (t < e → overshoot_phase t a (e :: rs) =
      some (t - a,
            (t - a) :: (match overshoot_wait true t rs with
              | some _ => [t]
              | none => []),
            overshoot_wait true t rs)) ∧
    (¬ t < e → overshoot_phase t a (e :: rs) =
      some (t + a,
            (t + a) :: (match overshoot_wait false t rs with
              | some _ => [t]
              | none => []),
            overshoot_wait false t rs)) ∧
    (∀ cooling : Bool, overshoot_wait cooling t rs =
      rs.find? (fun m => if cooling then decide (m ≤ t) else decide (t ≤ m))) ∧
    overshoot_phase 10 5 [30, 20, 11, 9] = some (5, [5, 10], some 9) := by
  refine ⟨?_, ?_, fun cooling => overshoot_wait_find cooling t rs, ?_⟩
  · intro h
    simp [overshoot_phase, decide_eq_true h]
  · intro h
    simp [overshoot_phase, decide_eq_false h]
  · norm_num [overshoot_phase, overshoot_wait]

/-- C4 witness: the cooling branch applied at
`target = 10, delta = 5, entry = 30`, loop readings `[20, 11, 9]`. -/
theorem overshoot_setpoint_and_crossing_witness :
    (10 : ℚ) < 30 ∧
    overshoot_phase 10 5 (30 :: [20, 11, 9]) =
      some ((10 : ℚ) - 5,
            ((10 : ℚ) - 5) :: (match overshoot_wait true 10 [20, 11, 9] with
              | some _ => [(10 : ℚ)]
              | none => []),
            overshoot_wait true 10 [20, 11, 9]) :=
  ⟨by norm_num,
   (overshoot_setpoint_and_crossing 10 5 30 [20, 11, 9]).1 (by norm_num)⟩

/-- C9: in fast mode the target setpoint is commanded exactly once, and the
polling loop exits at the first reading within `TEMP_TOLERANCE * 2 = 1`
degree of the target: the near-target threshold is exactly twice the
stability tolerance. -/
theorem fast_ramp_single_command_and_threshold (t : ℚ) (rs : List ℚ) :
    (ramp_to_temperature_fast t rs).1 = [t] ∧
    TEMP_TOLERANCE * 2 = 1 ∧
    fast_ramp_poll t rs = rs.find? (fun m => decide (|m - t| ≤ 1)) := by
  have htol : TEMP_TOLERANCE * 2 = 1 := by norm_num [TEMP_TOLERANCE]
  refine ⟨rfl, htol, ?_⟩
  induction rs with
  | nil => rfl
  | cons a l ih =>
    simp only [fast_ramp_poll, List.find?, htol]
    cases hB : decide (|a - t| ≤ 1) with
    | true =>
      rw [if_pos (of_decide_eq_true hB)]
    | false =>
      rw [if_neg (of_decide_eq_false hB), ih]

theorem run_sweep_cycles_range (count : ℕ) (outs : List SweepCycleOutcome) :
    (run_sweep_cycles count outs).2 =
      List.range' (count + 1) (run_sweep_cycles count outs).2.length := by
  induction outs generalizing count with
  | nil => rfl
  | cons o rest ih =>
    cases o with
    | errorBeforeAssign => rw [run_sweep_cycles]; exact ih count
    | success =>
      rw [run_sweep_cycles]
      simp only [List.length_cons, List.range'_succ]
      rw [← ih (count + 1)]
    | errorAfterAssign =>
      rw [run_sweep_cycles]
      simp only [List.length_cons, List.range'_succ]
      rw [← ih (count + 1)]

/-- C5: starting from the counter reset performed by `collect_data`, the
sequence numbers assigned by the sampling task across any number of cycles
— including cycles whose acquisition raises — are exactly
`[1, 2, ..., k]`: 1-based, strictly increasing by 1, with no gaps or
repeats. -/
theorem sweep_sequence_numbers (outs : List SweepCycleOutcome) :
    (run_sweep_cycles 0 outs).2 =
      List.range' 1 (run_sweep_cycles 0 outs).2.length :=
  run_sweep_cycles_range 0 outs

/-- C6 counterexample: when the experiment stop signal has been set
(`experiment_running = False`), an acquisition error inside a sampling cycle
produces no log line at all — the `print` is guarded by
`if experiment_running:` — contradicting the claim that a log line is
emitted for every acquisition error "including when the experiment stop
signal has been set". -/
theorem sweep_error_unlogged_after_stop :
    SweepEffect.logError ∉ vna_sweep_cycle false true := by decide

/-- C6 (amended): for every acquisition error raised inside a sampling-task
cycle while the stop signal is not set, a log line is emitted before the
retry sleep; once the stop signal has been set, the error is suppressed
without a log line and only the retry sleep occurs. -/
theorem sweep_error_logged_when_running (running : Bool) :
    (running = true → vna_sweep_cycle running true =
      [SweepEffect.logError, SweepEffect.sleepRetry]) ∧
    (running = false → vna_sweep_cycle running true =
      [SweepEffect.sleepRetry]) := by
  constructor <;> intro h <;> subst h <;> rfl

/-- C6 witness: both branches of the amended claim at concrete inputs. -/
theorem sweep_error_logged_when_running_witness :
    vna_sweep_cycle true true =
      [SweepEffect.logError, SweepEffect.sleepRetry] ∧
    vna_sweep_cycle false true = [SweepEffect.sleepRetry] :=
  ⟨(sweep_error_logged_when_running true).1 rfl,
   (sweep_error_logged_when_running false).2 rfl⟩

theorem collect_data_run_effects (steps : List StepResult) (idle_raises : Bool) :
    (collect_data_run steps idle_raises).1 =
      [Effect.setStopFlag, Effect.setIdle,
       Effect.writeMetadata ((runLoop steps).isNone)] := by
  cases hr : runLoop steps with
  | none =>
    simp [collect_data_run, try_except_ki, finally_block, stmtSeq,
      try_except_pass, set_idle_stmt, hr]
  | some e =>
    cases e <;>
      simp [collect_data_run, try_except_ki, finally_block, stmtSeq,
        try_except_pass, set_idle_stmt, hr]

theorem collect_data_run_exc (steps : List StepResult) (idle_raises : Bool) :
    (collect_data_run steps idle_raises).2 = (try_except_ki steps).2 := by
  cases hr : runLoop steps with
  | none =>
    simp [collect_data_run, try_except_ki, finally_block, stmtSeq,
      try_except_pass, set_idle_stmt, hr]
  | some e =>
    cases e <;>
      simp [collect_data_run, try_except_ki, finally_block, stmtSeq,
        try_except_pass, set_idle_stmt, hr]

theorem runLoop_isNone_iff (steps : List StepResult) :
    (runLoop steps).isNone = true ↔ ∀ s ∈ steps, s = StepResult.ok := by
  induction steps with
  | nil => simp [runLoop]
  | cons sr rest ih =>
    cases sr with
    | ok => simpa [runLoop] using ih
    | raiseKI => simp [runLoop]
    | raiseOther => simp [runLoop]

/-- C1: for every run of the `collect_data` body — completing all targets,
`KeyboardInterrupt` inside the per-target loop, or an unexpected exception —
finalization runs exactly once: the sampling stop flag is set once, the
device idle operation is invoked once, and the metadata record is written
exactly once, with `completed = true` exactly when all targets finished. -/
theorem collect_data_finalization (steps : List StepResult) (idle_raises : Bool) :
    (collect_data_run steps idle_raises).1.count Effect.setStopFlag = 1 ∧
    (collect_data_run steps idle_raises).1.count Effect.setIdle = 1 ∧
    (collect_data_run steps idle_raises).1.filter Effect.isWriteMeta =
      [Effect.writeMetadata ((runLoop steps).isNone)] ∧
    ((runLoop steps).isNone = true ↔ ∀ s ∈ steps, s = StepResult.ok) := by
  rw [collect_data_run_effects]
  refine ⟨?_, ?_, ?_, runLoop_isNone_iff steps⟩
  · simp [List.count_cons, Effect.writeMetadata.injEq]
  · simp [List.count_cons]
  · simp [List.filter, Effect.isWriteMeta]

/-- C10: during finalization an exception raised by `device.set_idle()` is
swallowed by the bare `except: pass`: with a failing idle command the
effects are unchanged — the stop flag is set first, the idle operation is
invoked, and the metadata record is still written afterwards — and the
run's escaping exception is exactly the body's pending exception, never the
idle failure. -/
theorem set_idle_failure_suppressed (steps : List StepResult) :
    (collect_data_run steps true).1 =
      [Effect.setStopFlag, Effect.setIdle,
       Effect.writeMetadata ((runLoop steps).isNone)] ∧
    (collect_data_run steps true).1 = (collect_data_run steps false).1 ∧
    (collect_data_run steps true).2 = (try_except_ki steps).2 :=
  ⟨collect_data_run_effects steps true,
   by rw [collect_data_run_effects steps true, collect_data_run_effects steps false],
   collect_data_run_exc steps true⟩

end VnaTempControl
